import Mathlib

/-!
Shallow embedding of the entity-component store in src/src/ecs.rs.

Rust types are modelled as follows:
* `Entity(u32)` and `TypeId` become `Nat`.
* The runtime type of a component is abstracted by a family
  `Comp : TypeId → Type`: the component type whose `TypeId::of` is `t`
  is `Comp t`.
* `HashMap<K, V>` becomes an association list with replace-on-insert
  semantics (`mapInsert`/`mapGet`); iteration order is the list order,
  which is deliberately unspecified, matching the unordered hash map.
* `Box<dyn Any>` holding a `Storage<T>` becomes `DynBox`: the stored
  value together with the `TypeId` tag it was constructed at.
  `downcast` succeeds exactly when the tag matches the requested type.
* A `RefCell` borrow state is a `BorrowFlag` per storage cell; the
  borrow-aware accessors are modelled separately (`storage_mutB`,
  `storageB`) with an explicit flag map.
* Panics are modelled as `none` / `Except.error` results.
-/

abbrev Entity := Nat
abbrev TypeId := Nat

/-- `HashMap` lookup: first binding of the key in the association list. -/
def mapGet {α : Type} : List (Nat × α) → Nat → Option α
  | [], _ => none
  | (k, v) :: rest, q => if k = q then some v else mapGet rest q

/-- `HashMap::insert`: replace the first binding of the key, or append. -/
def mapInsert {α : Type} : List (Nat × α) → Nat → α → List (Nat × α)
  | [], q, w => [(q, w)]
  | (k, v) :: rest, q, w =>
    if k = q then (q, w) :: rest else (k, v) :: mapInsert rest q w

/-- The keys of an association list are pairwise distinct. -/
def keysNodup {α : Type} (l : List (Nat × α)) : Prop :=
  (l.map Prod.fst).Nodup

instance {α : Type} (l : List (Nat × α)) : Decidable (keysNodup l) := by
  unfold keysNodup; infer_instance

theorem mapGet_mapInsert_self {α : Type} (l : List (Nat × α)) (k : Nat) (v : α) :
    mapGet (mapInsert l k v) k = some v := by
  induction l with
  | nil => simp [mapInsert, mapGet]
  | cons p rest ih =>
    obtain ⟨k0, v0⟩ := p
    by_cases h : k0 = k <;> simp [mapInsert, mapGet, h, ih]

theorem mapGet_mapInsert_ne {α : Type} (l : List (Nat × α)) (k q : Nat) (v : α)
    (h : q ≠ k) : mapGet (mapInsert l k v) q = mapGet l q := by
  induction l with
  | nil => simp [mapInsert, mapGet, Ne.symm h]
  | cons p rest ih =>
    obtain ⟨k0, v0⟩ := p
    by_cases h0 : k0 = k
    · subst h0
      simp [mapInsert, mapGet, Ne.symm h]
    · simp [mapInsert, mapGet, h0, ih]

theorem mem_mapInsert {α : Type} (l : List (Nat × α)) (k : Nat) (v : α) (p : Nat × α)
    (h : p ∈ mapInsert l k v) : p = (k, v) ∨ p ∈ l := by
  induction l with
  | nil => simpa [mapInsert] using h
  | cons hd rest ih =>
    obtain ⟨k0, v0⟩ := hd
    by_cases h0 : k0 = k
    · subst h0
      rcases (by simpa [mapInsert] using h : p = (k0, v) ∨ p ∈ rest) with h1 | h1
      · exact Or.inl h1
      · exact Or.inr (List.mem_cons_of_mem _ h1)
    · rcases (by simpa [mapInsert, h0] using h : p = (k0, v0) ∨ p ∈ mapInsert rest k v)
        with h1 | h1
      · exact Or.inr (by simp [h1])
      · rcases ih h1 with h2 | h2
        · exact Or.inl h2
        · exact Or.inr (List.mem_cons_of_mem _ h2)

theorem mapGet_mem {α : Type} (l : List (Nat × α)) (k : Nat) (v : α)
    (h : mapGet l k = some v) : (k, v) ∈ l := by
  induction l with
  | nil => simp [mapGet] at h
  | cons hd rest ih =>
    obtain ⟨k0, v0⟩ := hd
    by_cases h0 : k0 = k
    · subst h0
      simp [mapGet] at h
      simp [h]
    · simp [mapGet, h0] at h
      exact List.mem_cons_of_mem _ (ih h)

theorem keys_mapInsert_subset {α : Type} (l : List (Nat × α)) (k q : Nat) (v : α)
    (h : q ∈ (mapInsert l k v).map Prod.fst) : q = k ∨ q ∈ l.map Prod.fst := by
  simp only [List.mem_map] at h
  obtain ⟨p, hp, hq⟩ := h
  rcases mem_mapInsert l k v p hp with h1 | h1
  · subst h1
    exact Or.inl hq.symm
  · exact Or.inr (List.mem_map.mpr ⟨p, h1, hq⟩)

theorem keysNodup_mapInsert {α : Type} (l : List (Nat × α)) (k : Nat) (v : α)
    (h : keysNodup l) : keysNodup (mapInsert l k v) := by
  induction l with
  | nil => simp [mapInsert, keysNodup]
  | cons hd rest ih =>
    obtain ⟨k0, v0⟩ := hd
    unfold keysNodup at h
    simp only [List.map_cons, List.nodup_cons] at h
    by_cases h0 : k0 = k
    · subst h0
      unfold keysNodup
      simpa [mapInsert] using h
    · unfold keysNodup
      simp only [mapInsert, if_neg h0, List.map_cons, List.nodup_cons]
      refine ⟨fun hc => ?_, ih h.2⟩
      rcases keys_mapInsert_subset rest k k0 v hc with h1 | h1
      · exact h0 h1
      · exact h.1 h1

theorem mem_iff_mapGet {α : Type} (l : List (Nat × α)) (k : Nat) (v : α)
    (h : keysNodup l) : (k, v) ∈ l ↔ mapGet l k = some v := by
  constructor
  · intro hm
    induction l with
    | nil => simp at hm
    | cons hd rest ih =>
      obtain ⟨k0, v0⟩ := hd
      unfold keysNodup at h
      simp only [List.map_cons, List.nodup_cons] at h
      rcases List.mem_cons.mp hm with h1 | h1
      · injection h1 with e1 e2
        subst e1; subst e2
        simp [mapGet]
      · have hk : k0 ≠ k := by
          intro e
          subst e
          exact h.1 (List.mem_map.mpr ⟨(k0, v), h1, rfl⟩)
        simpa [mapGet, hk] using ih h.2 h1
  · exact mapGet_mem l k v

theorem mapGet_isSome_mapInsert {α : Type} (l : List (Nat × α)) (k q : Nat) (v : α) :
    (mapGet (mapInsert l k v) q).isSome = true ↔
      q = k ∨ (mapGet l q).isSome = true := by
  by_cases h : q = k
  · subst h; simp [mapGet_mapInsert_self]
  · simp [mapGet_mapInsert_ne l k q v h, h]

/-- The two-way hash join of `query2`: iterate the first table, probe the
second by key. -/
def join2 {α β : Type} (l1 : List (Nat × α)) (l2 : List (Nat × β)) :
    List (Nat × α × β) :=
  l1.filterMap fun p => (mapGet l2 p.1).map fun w => (p.1, p.2, w)

/-- The three-way hash join of `query3`: iterate the first table, probe the
second and third by key. -/
def join3 {α β γ : Type} (l1 : List (Nat × α)) (l2 : List (Nat × β))
    (l3 : List (Nat × γ)) : List (Nat × α × β × γ) :=
  l1.filterMap fun p =>
    match mapGet l2 p.1, mapGet l3 p.1 with
    | some w2, some w3 => some (p.1, p.2, w2, w3)
    | _, _ => none

/-- `Storage<T>` from ecs.rs: a per-type table entity → component. -/
structure Storage (T : Type) where
  data : List (Entity × T)

/-- A `Box<dyn Any>` as stored in the registry: the `Storage` value together
with the `TypeId` it was constructed at (the runtime type of the box). -/
structure DynBox (Comp : TypeId → Type) where
  tag : TypeId
  storage : Storage (Comp tag)

/-- `downcast_ref`/`downcast_mut` to `Storage<T>`: succeeds exactly when the
box's runtime type is `T`. -/
def DynBox.downcast {Comp : TypeId → Type} (b : DynBox Comp) (t : TypeId) :
    Option (Storage (Comp t)) :=
  if h : b.tag = t then some (h ▸ b.storage) else none

/-- `World` from ecs.rs: the live-entity list and the type-indexed registry
of erased storages (`HashMap<TypeId, RefCell<Box<dyn Any>>>`; the borrow
flags of the `RefCell`s are modelled separately). -/
structure World (Comp : TypeId → Type) where
  entities : List Entity
  storages : List (TypeId × DynBox Comp)

/-- `World::new`. -/
def World.new (Comp : TypeId → Type) : World Comp := ⟨[], []⟩

variable {Comp : TypeId → Type}

/-- The identifier of the last entity in the live-entity list, or 0 when the
list is empty (`self.entities.last().unwrap_or(&Entity(0)).0`). -/
def World.lastId (w : World Comp) : Nat :=
  (w.entities.getLast?).getD 0

/-- `World::spawn`: allocate `last + 1`, push it, return it. -/
def World.spawn (w : World Comp) : World Comp × Entity :=
  let next := w.lastId + 1
  (⟨w.entities ++ [next], w.storages⟩, next)

/-- Iterated `spawn`, collecting the returned entities in call order. -/
def World.spawnN (w : World Comp) : Nat → World Comp × List Entity
  | 0 => (w, [])
  | n + 1 =>
    let p := w.spawn
    let q := p.1.spawnN n
    (q.1, p.2 :: q.2)

/-- `World::insert`: look up (or lazily create) the storage cell for `t`,
downcast it to `Storage<T>`, and insert the component. The downcast's
`unwrap` is modelled by the `Option`: `none` is the panic on a box whose
runtime type is not `Storage<T>`. -/
def World.insert (w : World Comp) (t : TypeId) (e : Entity) (v : Comp t) :
    Option (World Comp) :=
  match ((mapGet w.storages t).getD ⟨t, ⟨[]⟩⟩).downcast t with
  | some st =>
    some ⟨w.entities, mapInsert w.storages t ⟨t, ⟨mapInsert st.data e v⟩⟩⟩
  | none => none

/-- Outcome of the data path shared by `World::storage` and
`World::storage_mut`: the registry has no cell for `t` (Rust returns
`None`), the downcast `unwrap` panics, or the storage is found. -/
inductive AccessResult (α : Type) where
  | absent
  | panicked
  | found (st : α)

/-- `World::storage`: registry lookup, then `downcast_ref().unwrap()`. -/
def World.storage (w : World Comp) (t : TypeId) : AccessResult (Storage (Comp t)) :=
  match mapGet w.storages t with
  | none => .absent
  | some b =>
    match b.downcast t with
    | some st => .found st
    | none => .panicked

/-- `World::storage_mut`: same lookup and downcast as `storage`; the borrow
kind only differs in the `RefCell` flag, modelled separately below. -/
def World.storage_mut (w : World Comp) (t : TypeId) :
    AccessResult (Storage (Comp t)) :=
  match mapGet w.storages t with
  | none => .absent
  | some b =>
    match b.downcast t with
    | some st => .found st
    | none => .panicked

/-- `World::view`: `storage().expect("Storage not initialized")`. An
`Except.error` is a panic with the given message. -/
def World.view (w : World Comp) (t : TypeId) : Except String (Storage (Comp t)) :=
  match w.storage t with
  | .found st => .ok st
  | .absent => .error "Storage not initialized"
  | .panicked => .error "downcast unwrap"

/-- `World::view_mut`: `storage_mut().expect("Storage not initialized (mut version)")`. -/
def World.view_mut (w : World Comp) (t : TypeId) :
    Except String (Storage (Comp t)) :=
  match w.storage_mut t with
  | .found st => .ok st
  | .absent => .error "Storage not initialized (mut version)"
  | .panicked => .error "downcast unwrap"

/-- The entity/component pairs currently stored for type `t` (empty when no
storage for `t` exists). -/
def World.dataOf (w : World Comp) (t : TypeId) : List (Entity × Comp t) :=
  match w.storage t with
  | .found st => st.data
  | _ => []

/-- `World::query`: the pairs handed to the callback, in storage order;
`none` is a panic inside `storage`. -/
def World.query (w : World Comp) (t : TypeId) :
    Option (List (Entity × Comp t)) :=
  match w.storage t with
  | .absent => some []
  | .panicked => none
  | .found st => some st.data

/-- `World::query2`: both `storage` calls run first (either may panic); the
join iterates the first storage and probes the second by key. -/
def World.query2 (w : World Comp) (a b : TypeId) :
    Option (List (Entity × Comp a × Comp b)) :=
  match w.storage a, w.storage b with
  | .panicked, _ => none
  | _, .panicked => none
  | .found sa, .found sb => some (join2 sa.data sb.data)
  | _, _ => some []

/-- `World::query3`: all three `storage` calls run first; the join iterates
the first storage and probes the other two by key. -/
def World.query3 (w : World Comp) (a b c : TypeId) :
    Option (List (Entity × Comp a × Comp b × Comp c)) :=
  match w.storage a, w.storage b, w.storage c with
  | .panicked, _, _ => none
  | _, .panicked, _ => none
  | _, _, .panicked => none
  | .found sa, .found sb, .found sc => some (join3 sa.data sb.data sc.data)
  | _, _, _ => some []

/-- The structural invariant of the registry: every cell stored under key
`t` was constructed as a `Storage` for exactly `t`, and each storage holds
at most one value per entity. -/
def WF (w : World Comp) : Prop :=
  ∀ p ∈ w.storages, p.2.tag = p.1 ∧ keysNodup p.2.storage.data

instance decWF (w : World Comp) : Decidable (WF w) :=
  List.decidableBAll _ _

/-- A mutating call on the `World` API. -/
inductive Op (Comp : TypeId → Type) where
  | spawn
  | insert (t : TypeId) (e : Entity) (v : Comp t)

/-- Run one API call; `none` is a panic inside `insert`. -/
def World.applyOp (w : World Comp) : Op Comp → Option (World Comp)
  | .spawn => some (w.spawn).1
  | .insert t e v => w.insert t e v

/-- Run a sequence of API calls from a starting world. -/
def runOps (w : World Comp) : List (Op Comp) → Option (World Comp)
  | [] => some w
  | op :: rest =>
    match w.applyOp op with
    | some w1 => runOps w1 rest
    | none => none

/-- Modelled from the spec: `World::has_storage` is described in §4.2 of the
spec but absent from src/src/ecs.rs; per §2 the registry supports
"existence checks", so it is modelled as membership of the type key in the
storage registry. -/
def World.hasStorage (w : World Comp) (t : TypeId) : Bool :=
  (mapGet w.storages t).isSome

/-- The borrow state of one `RefCell`: unborrowed, shared-borrowed by `n + 1`
readers, or exclusively borrowed. -/
inductive BorrowFlag where
  | free
  | reading (n : Nat)
  | writing
deriving DecidableEq

/-- Overwrite the flag of one storage cell. -/
def setFlag (flags : TypeId → BorrowFlag) (t : TypeId) (f : BorrowFlag) :
    TypeId → BorrowFlag :=
  fun u => if u = t then f else flags u

/-- Result of a borrow-aware accessor call: the world data afterwards, the
borrow flags afterwards, the acquired storage view if any, and whether the
call panicked (`RefCell` borrow violation or downcast `unwrap`). -/
structure BorrowResult (Comp : TypeId → Type) (t : TypeId) where
  world : World Comp
  flags : TypeId → BorrowFlag
  view : Option (Storage (Comp t))
  panicked : Bool

/-- `World::storage_mut` with the `RefCell` borrow flags made explicit:
`cell.borrow_mut()` panics unless the cell is unborrowed; on success the
cell becomes exclusively borrowed. Only the flag of the requested cell is
consulted or changed. -/
def World.storage_mutB (w : World Comp) (flags : TypeId → BorrowFlag)
    (t : TypeId) : BorrowResult Comp t :=
  match mapGet w.storages t with
  | none => ⟨w, flags, none, false⟩
  | some b =>
    match flags t with
    | .free =>
      match b.downcast t with
      | some st => ⟨w, setFlag flags t .writing, some st, false⟩
      | none => ⟨w, setFlag flags t .writing, none, true⟩
    | _ => ⟨w, flags, none, true⟩

/-- `World::storage` with the `RefCell` borrow flags made explicit:
`cell.borrow()` panics exactly when the cell is exclusively borrowed; on
success the cell gains one more reader. -/
def World.storageB (w : World Comp) (flags : TypeId → BorrowFlag)
    (t : TypeId) : BorrowResult Comp t :=
  match mapGet w.storages t with
  | none => ⟨w, flags, none, false⟩
  | some b =>
    match flags t with
    | .writing => ⟨w, flags, none, true⟩
    | .reading n =>
      match b.downcast t with
      | some st => ⟨w, setFlag flags t (.reading (n + 1)), some st, false⟩
      | none => ⟨w, setFlag flags t (.reading (n + 1)), none, true⟩
    | .free =>
      match b.downcast t with
      | some st => ⟨w, setFlag flags t (.reading 0), some st, false⟩
      | none => ⟨w, setFlag flags t (.reading 0), none, true⟩

/-- A successful downcast of a box at its own construction tag. -/
theorem DynBox.downcast_mk (t : TypeId) (st : Storage (Comp t)) :
    (⟨t, st⟩ : DynBox Comp).downcast t = some st := by
  unfold DynBox.downcast
  rw [dif_pos rfl]

/-- `storage` and `storage_mut` share one data path. -/
theorem World.storage_mut_eq_storage (w : World Comp) (t : TypeId) :
    w.storage_mut t = w.storage t := rfl

/-- `storage` reports `absent` exactly when the registry has no cell. -/
theorem World.storage_absent_iff (w : World Comp) (t : TypeId) :
    w.storage t = .absent ↔ mapGet w.storages t = none := by
  unfold World.storage
  cases hm : mapGet w.storages t with
  | none => simp
  | some b => cases hd : b.downcast t <;> simp [hd]

/-- Under the registry invariant each type is either absent or has a found,
duplicate-free storage that `dataOf` reads back. -/
theorem World.storage_cases (w : World Comp) (t : TypeId) (hwf : WF w) :
    (w.storage t = .absent ∧ w.dataOf t = []) ∨
      (∃ st, w.storage t = .found st ∧ st.data = w.dataOf t ∧
        keysNodup st.data) := by
  cases hm : mapGet w.storages t with
  | none =>
    left
    constructor
    · exact (w.storage_absent_iff t).mpr hm
    · unfold World.dataOf World.storage
      rw [hm]
  | some b =>
    right
    have hp := hwf (t, b) (mapGet_mem _ _ _ hm)
    obtain ⟨tg, bst⟩ := b
    obtain ⟨htag, hnd⟩ := hp
    dsimp at htag
    subst htag
    have hs : w.storage tg = .found bst := by
      unfold World.storage
      rw [hm]
      simp [DynBox.downcast_mk]
    refine ⟨bst, hs, ?_, hnd⟩
    unfold World.dataOf
    rw [hs]

/-- Under the registry invariant `storage` never hits the downcast panic. -/
theorem World.storage_ne_panicked (w : World Comp) (t : TypeId) (hwf : WF w) :
    w.storage t ≠ .panicked := by
  rcases w.storage_cases t hwf with ⟨h, _⟩ | ⟨st, h, _, _⟩ <;> simp [h]

/-- Under the registry invariant `insert` computes to a plain map update and
in particular never fails. -/
theorem World.insert_eq (w : World Comp) (t : TypeId) (e : Entity) (v : Comp t)
    (hwf : WF w) :
    w.insert t e v =
      some ⟨w.entities,
        mapInsert w.storages t ⟨t, ⟨mapInsert (w.dataOf t) e v⟩⟩⟩ := by
  cases hm : mapGet w.storages t with
  | none =>
    have hd : w.dataOf t = [] := by
      unfold World.dataOf World.storage
      rw [hm]
    rw [hd]
    unfold World.insert
    rw [hm]
    simp [DynBox.downcast_mk]
  | some b =>
    have hp := hwf (t, b) (mapGet_mem _ _ _ hm)
    obtain ⟨tg, bst⟩ := b
    obtain ⟨htag, hnd⟩ := hp
    dsimp at htag
    subst htag
    have hd : w.dataOf tg = bst.data := by
      unfold World.dataOf World.storage
      rw [hm]
      simp [DynBox.downcast_mk]
    rw [hd]
    unfold World.insert
    rw [hm]
    simp [DynBox.downcast_mk]

/-- `dataOf` holds no duplicate entity keys under the registry invariant. -/
theorem World.dataOf_keysNodup (w : World Comp) (t : TypeId) (hwf : WF w) :
    keysNodup (w.dataOf t) := by
  rcases w.storage_cases t hwf with ⟨_, hd⟩ | ⟨st, _, hd, hnd⟩
  · rw [hd]
    simp [keysNodup]
  · rw [← hd]
    exact hnd

/-- The fresh world satisfies the registry invariant. -/
theorem WF_new : WF (World.new Comp) := by
  intro p hp
  simp [World.new] at hp

/-- `spawn` leaves the registry untouched. -/
theorem WF_spawn (w : World Comp) (hwf : WF w) : WF (w.spawn).1 :=
  fun p hp => hwf p hp

/-- A successful `insert` preserves the registry invariant. -/
theorem WF_insert (w w1 : World Comp) (t : TypeId) (e : Entity) (v : Comp t)
    (hwf : WF w) (h : w.insert t e v = some w1) : WF w1 := by
  rw [w.insert_eq t e v hwf] at h
  injection h with h
  subst h
  intro p hp
  rcases mem_mapInsert _ _ _ p hp with h1 | h1
  · subst h1
    exact ⟨rfl, keysNodup_mapInsert _ _ _ (w.dataOf_keysNodup t hwf)⟩
  · exact hwf p h1

/-- After `insert`, the storage for the inserted type is the old table with
the one binding overwritten. -/
theorem World.dataOf_insert_self (w w1 : World Comp) (t : TypeId) (e : Entity)
    (v : Comp t) (hwf : WF w) (h : w.insert t e v = some w1) :
    w1.dataOf t = mapInsert (w.dataOf t) e v := by
  rw [w.insert_eq t e v hwf] at h
  injection h with h
  subst h
  unfold World.dataOf World.storage
  rw [mapGet_mapInsert_self]
  simp [DynBox.downcast_mk]

/-- After `insert` at type `t`, every other type's storage reads back
unchanged. -/
theorem World.dataOf_insert_other (w w1 : World Comp) (t u : TypeId)
    (e : Entity) (v : Comp t) (hwf : WF w) (h : w.insert t e v = some w1)
    (hne : u ≠ t) : w1.dataOf u = w.dataOf u := by
  rw [w.insert_eq t e v hwf] at h
  injection h with h
  subst h
  unfold World.dataOf World.storage
  rw [mapGet_mapInsert_ne _ _ _ _ hne]

/-- A successful `insert` rewrites only the registry cell of the inserted
type. -/
theorem World.insert_storages (w w1 : World Comp) (t : TypeId) (e : Entity)
    (v : Comp t) (h : w.insert t e v = some w1) :
    ∃ d, w1.storages = mapInsert w.storages t ⟨t, ⟨d⟩⟩ := by
  unfold World.insert at h
  cases hd : DynBox.downcast ((mapGet w.storages t).getD ⟨t, ⟨[]⟩⟩) t with
  | none => rw [hd] at h; exact absurd h (by simp)
  | some st =>
    rw [hd] at h
    injection h with h
    subst h
    exact ⟨mapInsert st.data e v, rfl⟩

/-- Running a trace from a well-formed world never panics and ends in a
well-formed world. -/
theorem runOps_wf (ops : List (Op Comp)) :
    ∀ w : World Comp, WF w → ∃ w1, runOps w ops = some w1 ∧ WF w1 := by
  induction ops with
  | nil => exact fun w hwf => ⟨w, rfl, hwf⟩
  | cons op rest ih =>
    intro w hwf
    cases op with
    | spawn =>
      obtain ⟨w1, h1, h2⟩ := ih (w.spawn).1 (WF_spawn w hwf)
      exact ⟨w1, by simpa [runOps, World.applyOp] using h1, h2⟩
    | insert t e v =>
      obtain ⟨w1, h1, h2⟩ := ih _ (WF_insert w _ t e v hwf (w.insert_eq t e v hwf))
      refine ⟨w1, ?_, h2⟩
      simp only [runOps, World.applyOp]
      rw [w.insert_eq t e v hwf]
      exact h1

/-- Whether an operation inserts a component of type `t`. -/
def opInserts (t : TypeId) : Op Comp → Prop
  | .insert t0 _ _ => t0 = t
  | .spawn => False

instance decOpInserts (t : TypeId) (op : Op Comp) :
    Decidable (opInserts t op) := by
  cases op <;> simp only [opInserts] <;> infer_instance

/-- A registry cell for `t` exists after a trace exactly when it existed
before or the trace inserted a component of type `t`. -/
theorem runOps_hasStorage (ops : List (Op Comp)) :
    ∀ w w1 : World Comp, runOps w ops = some w1 → ∀ t,
      ((mapGet w1.storages t).isSome = true ↔
        (mapGet w.storages t).isSome = true ∨ ∃ op ∈ ops, opInserts t op) := by
  induction ops with
  | nil =>
    intro w w1 h t
    simp only [runOps] at h
    injection h with h
    subst h
    simp
  | cons op rest ih =>
    intro w w1 h t
    cases op with
    | spawn =>
      simp only [runOps, World.applyOp] at h
      rw [ih _ _ h t]
      simp [opInserts, World.spawn]
    | insert t0 e0 v0 =>
      simp only [runOps, World.applyOp] at h
      cases hi : w.insert t0 e0 v0 with
      | none => rw [hi] at h; exact absurd h (by simp)
      | some w2 =>
        rw [hi] at h
        obtain ⟨d, hst⟩ := World.insert_storages w w2 t0 e0 v0 hi
        rw [ih _ _ h t, hst, mapGet_isSome_mapInsert]
        constructor
        · rintro ((h1 | h1) | h1)
          · exact Or.inr ⟨.insert t0 e0 v0, by simp, h1.symm⟩
          · exact Or.inl h1
          · obtain ⟨op, hop, hins⟩ := h1
            exact Or.inr ⟨op, by simp [hop], hins⟩
        · rintro (h1 | ⟨op, hop, hins⟩)
          · exact Or.inl (Or.inr h1)
          · rcases List.mem_cons.mp hop with h2 | h2
            · subst h2
              exact Or.inl (Or.inl hins.symm)
            · exact Or.inr ⟨op, h2, hins⟩

/-- Membership in the two-way join list: an entity/value triple is produced
exactly when both tables bind the entity to those values. -/
theorem mem_join2 {α β : Type} (l1 : List (Nat × α)) (l2 : List (Nat × β))
    (hnd : keysNodup l1) (e : Nat) (va : α) (vb : β) :
    ((e, va, vb) ∈ join2 l1 l2) ↔
      (mapGet l1 e = some va ∧ mapGet l2 e = some vb) := by
  rw [join2, List.mem_filterMap]
  constructor
  · rintro ⟨⟨e0, va0⟩, hp, hf⟩
    simp only [Option.map_eq_some'] at hf
    obtain ⟨vb0, hb, he⟩ := hf
    injection he with he1 he2
    injection he2 with he2 he3
    subst he1; subst he2; subst he3
    exact ⟨(mem_iff_mapGet l1 e0 va0 hnd).mp hp, hb⟩
  · rintro ⟨ha, hb⟩
    refine ⟨(e, va), (mem_iff_mapGet l1 e va hnd).mpr ha, ?_⟩
    simp [hb]

/-- Membership in the three-way join list. -/
theorem mem_join3 {α β γ : Type} (l1 : List (Nat × α)) (l2 : List (Nat × β))
    (l3 : List (Nat × γ)) (hnd : keysNodup l1) (e : Nat) (va : α) (vb : β)
    (vc : γ) :
    ((e, va, vb, vc) ∈ join3 l1 l2 l3) ↔
      (mapGet l1 e = some va ∧ mapGet l2 e = some vb ∧
        mapGet l3 e = some vc) := by
  rw [join3, List.mem_filterMap]
  constructor
  · rintro ⟨⟨e0, va0⟩, hp, hf⟩
    cases hb : mapGet l2 e0 with
    | none =>
      rw [hb] at hf
      cases hc : mapGet l3 e0 <;> rw [hc] at hf <;> simp at hf
    | some vb0 =>
      cases hc : mapGet l3 e0 with
      | none => rw [hb, hc] at hf; simp at hf
      | some vc0 =>
        rw [hb, hc] at hf
        injection hf with hf
        injection hf with hf1 hf2
        injection hf2 with hf2 hf3
        injection hf3 with hf3 hf4
        subst hf1; subst hf2; subst hf3; subst hf4
        exact ⟨(mem_iff_mapGet l1 e0 va0 hnd).mp hp, hb, hc⟩
  · rintro ⟨ha, hb, hc⟩
    refine ⟨(e, va), (mem_iff_mapGet l1 e va hnd).mpr ha, ?_⟩
    rw [hb, hc]

/-- After a `spawn` the last live entity is the one just returned. -/
theorem World.lastId_spawn (w : World Comp) :
    (w.spawn).1.lastId = w.lastId + 1 := by
  simp [World.lastId, World.spawn, List.getLast?_concat]

/-- The identifiers returned by `n` consecutive `spawn` calls are the
consecutive range starting just above the current last identifier. -/
theorem World.spawnN_spec (n : Nat) :
    ∀ w : World Comp, (w.spawnN n).2 = List.range' (w.lastId + 1) n ∧
      (w.spawnN n).1.entities = w.entities ++ List.range' (w.lastId + 1) n := by
  induction n with
  | zero =>
    intro w
    simp [World.spawnN]
  | succ n ih =>
    intro w
    obtain ⟨h1, h2⟩ := ih (w.spawn).1
    have e2 : (w.spawnN (n + 1)).2 = (w.spawn).2 :: ((w.spawn).1.spawnN n).2 := rfl
    have e1 : (w.spawnN (n + 1)).1 = ((w.spawn).1.spawnN n).1 := rfl
    constructor
    · rw [e2, h1, World.lastId_spawn, List.range'_succ]
      rfl
    · rw [e1, h2, World.lastId_spawn, List.range'_succ]
      show (w.entities ++ [w.lastId + 1]) ++ _ = _
      simp

/-- Under the registry invariant `query2` never panics, and its result holds
an entity/value triple exactly when both storages bind that entity to those
values. -/
theorem World.query2_spec (w : World Comp) (a b : TypeId) (hwf : WF w) :
    ∃ l2, w.query2 a b = some l2 ∧
      ∀ e va vb, ((e, va, vb) ∈ l2 ↔
        (mapGet (w.dataOf a) e = some va ∧ mapGet (w.dataOf b) e = some vb)) := by
  rcases w.storage_cases a hwf with ⟨ha, hda⟩ | ⟨sa, ha, hda, hnda⟩ <;>
    rcases w.storage_cases b hwf with ⟨hb, hdb⟩ | ⟨sb, hb, hdb, hndb⟩
  · exact ⟨[], by simp [World.query2, ha, hb], fun e va vb => by simp [hda, mapGet]⟩
  · exact ⟨[], by simp [World.query2, ha, hb], fun e va vb => by simp [hda, mapGet]⟩
  · exact ⟨[], by simp [World.query2, ha, hb], fun e va vb => by simp [hdb, mapGet]⟩
  · refine ⟨join2 sa.data sb.data, ?_, fun e va vb => ?_⟩
    · simp [World.query2, ha, hb]
    · rw [← hda, ← hdb]
      exact mem_join2 sa.data sb.data hnda e va vb

/-- Under the registry invariant `query3` never panics, and its result holds
an entity/value tuple exactly when all three storages bind that entity to
those values. -/
theorem World.query3_spec (w : World Comp) (a b c : TypeId) (hwf : WF w) :
    ∃ l3, w.query3 a b c = some l3 ∧
      ∀ e va vb vc, ((e, va, vb, vc) ∈ l3 ↔
        (mapGet (w.dataOf a) e = some va ∧ mapGet (w.dataOf b) e = some vb ∧
          mapGet (w.dataOf c) e = some vc)) := by
  rcases w.storage_cases a hwf with ⟨ha, hda⟩ | ⟨sa, ha, hda, hnda⟩ <;>
    rcases w.storage_cases b hwf with ⟨hb, hdb⟩ | ⟨sb, hb, hdb, hndb⟩ <;>
      rcases w.storage_cases c hwf with ⟨hc, hdc⟩ | ⟨sc, hc, hdc, hndc⟩
  · exact ⟨[], by simp [World.query3, ha, hb, hc], fun e va vb vc => by simp [hda, mapGet]⟩
  · exact ⟨[], by simp [World.query3, ha, hb, hc], fun e va vb vc => by simp [hda, mapGet]⟩
  · exact ⟨[], by simp [World.query3, ha, hb, hc], fun e va vb vc => by simp [hda, mapGet]⟩
  · exact ⟨[], by simp [World.query3, ha, hb, hc], fun e va vb vc => by simp [hda, mapGet]⟩
  · exact ⟨[], by simp [World.query3, ha, hb, hc], fun e va vb vc => by simp [hdb, mapGet]⟩
  · exact ⟨[], by simp [World.query3, ha, hb, hc], fun e va vb vc => by simp [hdb, mapGet]⟩
  · exact ⟨[], by simp [World.query3, ha, hb, hc], fun e va vb vc => by simp [hdc, mapGet]⟩
  · refine ⟨join3 sa.data sb.data sc.data, ?_, fun e va vb vc => ?_⟩
    · simp [World.query3, ha, hb, hc]
    · rw [← hda, ← hdb, ← hdc]
      exact mem_join3 sa.data sb.data sc.data hnda e va vb vc

/-- C1: Join correctness: for every well-formed `World`, `query2` yields
`(E, a, b)` exactly for the entities `E` with a stored value in both the
storage for `A` and the storage for `B`, and `query3` yields `(E, a, b, c)`
exactly for the entities with a stored value in all three storages; the
yielded values equal the values currently stored for `E`, and no entity
lacking a component in any requested type appears in either result. -/
theorem query_join_correct (w : World Comp) (a b c : TypeId) (hwf : WF w) :
    (∃ l2, w.query2 a b = some l2 ∧
      ∀ e va vb, ((e, va, vb) ∈ l2 ↔
        (mapGet (w.dataOf a) e = some va ∧ mapGet (w.dataOf b) e = some vb))) ∧
    (∃ l3, w.query3 a b c = some l3 ∧
      ∀ e va vb vc, ((e, va, vb, vc) ∈ l3 ↔
        (mapGet (w.dataOf a) e = some va ∧ mapGet (w.dataOf b) e = some vb ∧
          mapGet (w.dataOf c) e = some vc))) :=
  ⟨w.query2_spec a b hwf, w.query3_spec a b c hwf⟩

/-- C2: Borrow exclusivity: with a cell for `t` present, requesting a
mutable borrow of storage `t` while any borrow of `t` is outstanding
panics, acquires nothing, and leaves the world data and all flags
untouched; and the rule is per storage: with storage `t` exclusively
borrowed, a different storage `u` that is unborrowed can still be acquired
both mutably and shared. -/
theorem borrow_exclusive (w : World Comp) (flags : TypeId → BorrowFlag)
    (t u : TypeId) (hwf : WF w)
    (hkt : (mapGet w.storages t).isSome = true)
    (hku : (mapGet w.storages u).isSome = true)
    (hut : u ≠ t) (htw : flags t = .writing) (hfu : flags u = .free) :
    ((w.storage_mutB flags t).panicked = true ∧
      (w.storage_mutB flags t).view = none ∧
      (w.storage_mutB flags t).world = w ∧
      (w.storage_mutB flags t).flags = flags) ∧
    (∀ g : TypeId → BorrowFlag, g t ≠ .free →
      (w.storage_mutB g t).panicked = true ∧ (w.storage_mutB g t).view = none ∧
      (w.storage_mutB g t).world = w ∧ (w.storage_mutB g t).flags = g) ∧
    ((w.storage_mutB flags u).panicked = false ∧
      ((w.storage_mutB flags u).view).isSome = true ∧
      (w.storage_mutB flags u).world = w) ∧
    ((w.storageB flags u).panicked = false ∧
      ((w.storageB flags u).view).isSome = true ∧
      (w.storageB flags u).world = w) := by
  obtain ⟨bt, hbt⟩ := Option.isSome_iff_exists.mp hkt
  obtain ⟨bu, hbu⟩ := Option.isSome_iff_exists.mp hku
  have hp := hwf (u, bu) (mapGet_mem _ _ _ hbu)
  obtain ⟨tg, bst⟩ := bu
  obtain ⟨htag, _⟩ := hp
  dsimp at htag
  subst htag
  have hgen : ∀ g : TypeId → BorrowFlag, g t ≠ .free →
      (w.storage_mutB g t).panicked = true ∧ (w.storage_mutB g t).view = none ∧
      (w.storage_mutB g t).world = w ∧ (w.storage_mutB g t).flags = g := by
    intro g hg
    cases hgt : g t with
    | free => exact absurd hgt hg
    | reading n => simp [World.storage_mutB, hbt, hgt]
    | writing => simp [World.storage_mutB, hbt, hgt]
  refine ⟨hgen flags (by rw [htw]; exact fun h => by injection h), hgen, ?_, ?_⟩
  · simp [World.storage_mutB, hbu, hfu, DynBox.downcast_mk]
  · simp [World.storageB, hbu, hfu, DynBox.downcast_mk]

/-- C3: Entity uniqueness: the identifiers returned by any sequence of
`spawn` calls are the consecutive range above the current last identifier,
hence strictly increasing and pairwise distinct, never 0, appended in
order to the live-entity list, and starting at 1 on a fresh `World`. -/
theorem spawn_strictly_increasing (w0 : World Comp) (n : Nat) :
    (w0.spawnN n).2 = List.range' (w0.lastId + 1) n ∧
    List.Pairwise (· < ·) (w0.spawnN n).2 ∧
    (∀ e ∈ (w0.spawnN n).2, e ≠ 0) ∧
    (w0.spawnN n).1.entities = w0.entities ++ (w0.spawnN n).2 ∧
    ((World.new Comp).spawnN n).2 = List.range' 1 n := by
  obtain ⟨h1, h2⟩ := World.spawnN_spec n w0
  refine ⟨h1, ?_, ?_, by rw [h1]; exact h2, ?_⟩
  · rw [h1]
    exact List.pairwise_lt_range' _ _
  · rw [h1]
    intro e he
    have h4 := (List.mem_range'_1).mp he
    exact Nat.one_le_iff_ne_zero.mp
      (le_trans (Nat.le_add_left 1 w0.lastId) h4.1)
  · obtain ⟨h3, _⟩ := World.spawnN_spec n (World.new Comp)
    simpa [World.lastId, World.new] using h3

/-- C4: Insert overwrites: on a well-formed `World`, `insert t e v1` then
`insert t e v2` both succeed; each updates the storage for `t` by a single
replace-or-append of the binding for `e`, so afterwards exactly `v2` is
retrievable for `e`, the storage still holds at most one value per entity,
and when no storage for `t` existed before, the first insert leaves the
freshly created storage holding exactly the one binding. -/
theorem insert_overwrites (w : World Comp) (t : TypeId) (e : Entity)
    (v1 v2 : Comp t) (hwf : WF w) :
    ∃ w1 w2, w.insert t e v1 = some w1 ∧ w1.insert t e v2 = some w2 ∧
      w1.dataOf t = mapInsert (w.dataOf t) e v1 ∧
      w2.dataOf t = mapInsert (w1.dataOf t) e v2 ∧
      mapGet (w2.dataOf t) e = some v2 ∧
      keysNodup (w2.dataOf t) ∧
      (mapGet w.storages t = none → w1.dataOf t = [(e, v1)]) := by
  obtain ⟨w1, hw1⟩ : ∃ w1, w.insert t e v1 = some w1 :=
    ⟨_, w.insert_eq t e v1 hwf⟩
  have hwf1 := WF_insert w w1 t e v1 hwf hw1
  obtain ⟨w2, hw2⟩ : ∃ w2, w1.insert t e v2 = some w2 :=
    ⟨_, w1.insert_eq t e v2 hwf1⟩
  have hd1 := World.dataOf_insert_self w w1 t e v1 hwf hw1
  have hd2 := World.dataOf_insert_self w1 w2 t e v2 hwf1 hw2
  refine ⟨w1, w2, hw1, hw2, hd1, hd2, ?_, ?_, ?_⟩
  · rw [hd2]
    exact mapGet_mapInsert_self _ _ _
  · rw [hd2]
    exact keysNodup_mapInsert _ _ _ (w1.dataOf_keysNodup t hwf1)
  · intro habs
    have hd0 : w.dataOf t = [] := by
      unfold World.dataOf World.storage
      rw [habs]
    rw [hd1, hd0]
    rfl

/-- C5: Join degradation on absent storage: on a well-formed `World`,
`query` over a type with no storage, and `query2`/`query3` where any one
requested type has no storage, return an empty result rather than
panicking. -/
theorem query_absent_empty (w : World Comp) (t a b c : TypeId) (hwf : WF w) :
    (mapGet w.storages t = none → w.query t = some []) ∧
    (mapGet w.storages a = none ∨ mapGet w.storages b = none →
      w.query2 a b = some []) ∧
    (mapGet w.storages a = none ∨ mapGet w.storages b = none ∨
        mapGet w.storages c = none →
      w.query3 a b c = some []) := by
  refine ⟨?_, ?_, ?_⟩
  · intro h
    have hs := (w.storage_absent_iff t).mpr h
    simp [World.query, hs]
  · intro h
    rcases h with h | h
    · have hs := (w.storage_absent_iff a).mpr h
      rcases w.storage_cases b hwf with ⟨hb, _⟩ | ⟨sb, hb, _, _⟩ <;>
        simp [World.query2, hs, hb]
    · have hs := (w.storage_absent_iff b).mpr h
      rcases w.storage_cases a hwf with ⟨ha, _⟩ | ⟨sa, ha, _, _⟩ <;>
        simp [World.query2, ha, hs]
  · intro h
    rcases h with h | h | h
    · have hs := (w.storage_absent_iff a).mpr h
      rcases w.storage_cases b hwf with ⟨hb, _⟩ | ⟨sb, hb, _, _⟩ <;>
        rcases w.storage_cases c hwf with ⟨hc, _⟩ | ⟨sc, hc, _, _⟩ <;>
          simp [World.query3, hs, hb, hc]
    · have hs := (w.storage_absent_iff b).mpr h
      rcases w.storage_cases a hwf with ⟨ha, _⟩ | ⟨sa, ha, _, _⟩ <;>
        rcases w.storage_cases c hwf with ⟨hc, _⟩ | ⟨sc, hc, _, _⟩ <;>
          simp [World.query3, ha, hs, hc]
    · have hs := (w.storage_absent_iff c).mpr h
      rcases w.storage_cases a hwf with ⟨ha, _⟩ | ⟨sa, ha, _, _⟩ <;>
        rcases w.storage_cases b hwf with ⟨hb, _⟩ | ⟨sb, hb, _, _⟩ <;>
          simp [World.query3, ha, hb, hs]

/-- C6: Accessor absence handling: along any run of the API from a fresh
`World`, `storage` and `storage_mut` report `absent` (Rust `None`) exactly
when no component of type `t` has ever been inserted, and they never panic. -/
theorem accessor_absent_iff_never_inserted (ops : List (Op Comp))
    (w : World Comp) (t : TypeId)
    (h : runOps (World.new Comp) ops = some w) :
    (w.storage t = .absent ↔ ¬ ∃ op ∈ ops, opInserts t op) ∧
    (w.storage_mut t = .absent ↔ ¬ ∃ op ∈ ops, opInserts t op) ∧
    w.storage t ≠ .panicked ∧ w.storage_mut t ≠ .panicked := by
  have hwf : WF w := by
    obtain ⟨w2, h2, hwf2⟩ := runOps_wf ops (World.new Comp) WF_new
    rw [h] at h2
    injection h2 with h2
    rw [h2]
    exact hwf2
  have hkey2 : (mapGet w.storages t).isSome = true ↔ ∃ op ∈ ops, opInserts t op := by
    simpa [World.new, mapGet] using runOps_hasStorage ops _ _ h t
  have hnone : mapGet w.storages t = none ↔
      ¬ (mapGet w.storages t).isSome = true := by
    cases mapGet w.storages t <;> simp
  have habs : w.storage t = .absent ↔ ¬ ∃ op ∈ ops, opInserts t op := by
    rw [w.storage_absent_iff t, hnone, hkey2]
  exact ⟨habs, by rw [World.storage_mut_eq_storage]; exact habs,
    w.storage_ne_panicked t hwf,
    by rw [World.storage_mut_eq_storage]; exact w.storage_ne_panicked t hwf⟩

/-- C7: Downcast infallibility: every run of the API from a fresh `World`
completes without any downcast `unwrap` firing, and in the resulting world
every `insert` succeeds and neither `storage` nor `storage_mut` can hit
the downcast panic for any type. -/
theorem downcast_infallible (ops : List (Op Comp)) :
    ∃ w, runOps (World.new Comp) ops = some w ∧
      (∀ t e v, (w.insert t e v).isSome = true) ∧
      (∀ t, w.storage t ≠ AccessResult.panicked) ∧
      (∀ t, w.storage_mut t ≠ AccessResult.panicked) := by
  obtain ⟨w, h, hwf⟩ := runOps_wf ops (World.new Comp) WF_new
  refine ⟨w, h, fun t e v => ?_, fun t => w.storage_ne_panicked t hwf,
    fun t => ?_⟩
  · rw [w.insert_eq t e v hwf]
    rfl
  · rw [World.storage_mut_eq_storage]
    exact w.storage_ne_panicked t hwf

/-- C8: Storage isolation (frame property): a successful
`insert a e v` on a well-formed `World` leaves every storage of a type
other than `a` unchanged, and within the storage for `a` leaves the value
of every entity other than `e` unchanged. -/
theorem insert_frame (w w1 : World Comp) (a : TypeId) (e : Entity)
    (v : Comp a) (hwf : WF w) (h : w.insert a e v = some w1) :
    (∀ b, b ≠ a → w1.dataOf b = w.dataOf b) ∧
    (∀ e2, e2 ≠ e → mapGet (w1.dataOf a) e2 = mapGet (w.dataOf a) e2) := by
  refine ⟨fun b hb => World.dataOf_insert_other w w1 a b e v hwf h hb,
    fun e2 he2 => ?_⟩
  rw [World.dataOf_insert_self w w1 a e v hwf h]
  exact mapGet_mapInsert_ne _ _ _ _ he2

/-- C9: `has_storage` reporting (the operation is described by the spec but
absent from the source, so it is modelled as registry membership): along
any run of the API from a fresh `World`, `hasStorage t` is true exactly
when some component of type `t` has been inserted. -/
theorem hasStorage_iff_ever_inserted (ops : List (Op Comp)) (w : World Comp)
    (t : TypeId) (h : runOps (World.new Comp) ops = some w) :
    (w.hasStorage t = true ↔ ∃ op ∈ ops, opInserts t op) := by
  simpa [World.hasStorage, World.new, mapGet] using
    runOps_hasStorage ops _ _ h t

/-- C10: `view`/`view_mut` panic with the messages
"Storage not initialized" / "Storage not initialized (mut version)" when no
storage for `t` exists, while `storage`/`storage_mut` report the same
condition as a plain `absent` result. -/
theorem view_panics_on_absent (w : World Comp) (t : TypeId)
    (h : mapGet w.storages t = none) :
    w.view t = .error "Storage not initialized" ∧
    w.view_mut t = .error "Storage not initialized (mut version)" ∧
    w.storage t = .absent ∧ w.storage_mut t = .absent := by
  have hs : w.storage t = .absent := (w.storage_absent_iff t).mpr h
  refine ⟨?_, ?_, hs, by rw [World.storage_mut_eq_storage]; exact hs⟩
  · simp [World.view, hs]
  · simp [World.view_mut, World.storage_mut_eq_storage, hs]

/-- A concrete component family for witnesses: every type id's component is
a `Nat`. -/
abbrev CompN : TypeId → Type := fun _ => Nat

/-- A concrete world: type 0 on entities 1 and 2, type 1 on entity 2,
type 2 on entity 3. -/
def wEx : World CompN :=
  ⟨[], [(0, ⟨0, ⟨[(1, 10), (2, 20)]⟩⟩), (1, ⟨1, ⟨[(2, 21)]⟩⟩),
    (2, ⟨2, ⟨[(3, 30)]⟩⟩)]⟩

/-- A concrete borrow state: storage 0 exclusively borrowed, all others
unborrowed. -/
def flagsEx : TypeId → BorrowFlag := fun x => if x = 0 then .writing else .free

/-- A concrete trace: one spawn, then one insert of type 0 on entity 1. -/
def opsEx : List (Op CompN) := [.spawn, .insert 0 1 42]

/-- The world the trace `opsEx` produces. -/
def wRun : World CompN := ⟨[1], [(0, ⟨0, ⟨[(1, 42)]⟩⟩)]⟩

/-- The world `wEx` after inserting component 50 of type 0 on entity 5. -/
def wIns : World CompN :=
  ⟨[], [(0, ⟨0, ⟨[(1, 10), (2, 20), (5, 50)]⟩⟩), (1, ⟨1, ⟨[(2, 21)]⟩⟩),
    (2, ⟨2, ⟨[(3, 30)]⟩⟩)]⟩

/-- Witness for C1 at the concrete world `wEx` and types 0, 1, 2. -/
theorem query_join_correct_witness :
    WF wEx ∧
    ((∃ l2, wEx.query2 0 1 = some l2 ∧
      ∀ e va vb, ((e, va, vb) ∈ l2 ↔
        (mapGet (wEx.dataOf 0) e = some va ∧
          mapGet (wEx.dataOf 1) e = some vb))) ∧
    (∃ l3, wEx.query3 0 1 2 = some l3 ∧
      ∀ e va vb vc, ((e, va, vb, vc) ∈ l3 ↔
        (mapGet (wEx.dataOf 0) e = some va ∧
          mapGet (wEx.dataOf 1) e = some vb ∧
          mapGet (wEx.dataOf 2) e = some vc)))) :=
  ⟨by decide, query_join_correct wEx 0 1 2 (by decide)⟩

/-- Witness for C2 at `wEx` with storage 0 mutably borrowed and storage 1
free. -/
theorem borrow_exclusive_witness :
    (WF wEx ∧ flagsEx 0 = .writing ∧ flagsEx 1 = .free) ∧
    (((wEx.storage_mutB flagsEx 0).panicked = true ∧
      (wEx.storage_mutB flagsEx 0).view = none ∧
      (wEx.storage_mutB flagsEx 0).world = wEx ∧
      (wEx.storage_mutB flagsEx 0).flags = flagsEx) ∧
    (∀ g : TypeId → BorrowFlag, g 0 ≠ .free →
      (wEx.storage_mutB g 0).panicked = true ∧
      (wEx.storage_mutB g 0).view = none ∧
      (wEx.storage_mutB g 0).world = wEx ∧
      (wEx.storage_mutB g 0).flags = g) ∧
    ((wEx.storage_mutB flagsEx 1).panicked = false ∧
      ((wEx.storage_mutB flagsEx 1).view).isSome = true ∧
      (wEx.storage_mutB flagsEx 1).world = wEx) ∧
    ((wEx.storageB flagsEx 1).panicked = false ∧
      ((wEx.storageB flagsEx 1).view).isSome = true ∧
      (wEx.storageB flagsEx 1).world = wEx)) :=
  ⟨⟨by decide, rfl, rfl⟩,
    borrow_exclusive wEx flagsEx 0 1 (by decide) (by decide) (by decide)
      (by decide) rfl rfl⟩

/-- Witness for C4: double insert at type 0, entity 5, values 100 then
200, on `wEx`. -/
theorem insert_overwrites_witness :
    WF wEx ∧
    (∃ w1 w2, wEx.insert 0 5 100 = some w1 ∧ w1.insert 0 5 200 = some w2 ∧
      w1.dataOf 0 = mapInsert (wEx.dataOf 0) 5 100 ∧
      w2.dataOf 0 = mapInsert (w1.dataOf 0) 5 200 ∧
      mapGet (w2.dataOf 0) 5 = some 200 ∧
      keysNodup (w2.dataOf 0) ∧
      (mapGet wEx.storages 0 = none → w1.dataOf 0 = [(5, 100)])) :=
  ⟨by decide, insert_overwrites wEx 0 5 100 200 (by decide)⟩

/-- Witness for C5: type 9 has no storage in `wEx`. -/
theorem query_absent_empty_witness :
    WF wEx ∧
    ((mapGet wEx.storages 9 = none → wEx.query 9 = some []) ∧
    (mapGet wEx.storages 9 = none ∨ mapGet wEx.storages 0 = none →
      wEx.query2 9 0 = some []) ∧
    (mapGet wEx.storages 9 = none ∨ mapGet wEx.storages 0 = none ∨
        mapGet wEx.storages 1 = none →
      wEx.query3 9 0 1 = some [])) :=
  ⟨by decide, query_absent_empty wEx 9 9 0 1 (by decide)⟩

/-- Witness for C6 on the concrete trace `opsEx` at type 5 (never
inserted). -/
theorem accessor_absent_witness :
    runOps (World.new CompN) opsEx = some wRun ∧
    ((wRun.storage 5 = .absent ↔ ¬ ∃ op ∈ opsEx, opInserts 5 op) ∧
    (wRun.storage_mut 5 = .absent ↔ ¬ ∃ op ∈ opsEx, opInserts 5 op) ∧
    wRun.storage 5 ≠ .panicked ∧ wRun.storage_mut 5 ≠ .panicked) :=
  ⟨rfl, accessor_absent_iff_never_inserted opsEx wRun 5 rfl⟩

/-- Witness for C8: inserting type 0 on entity 5 leaves type 1 and the
type-0 value of entity 2 untouched. -/
theorem insert_frame_witness :
    (WF wEx ∧ wEx.insert 0 5 50 = some wIns) ∧
    wIns.dataOf 1 = wEx.dataOf 1 ∧
    mapGet (wIns.dataOf 0) 2 = mapGet (wEx.dataOf 0) 2 :=
  ⟨⟨by decide, rfl⟩,
    (insert_frame wEx wIns 0 5 50 (by decide) rfl).1 1 (by decide),
    (insert_frame wEx wIns 0 5 50 (by decide) rfl).2 2 (by decide)⟩

/-- Witness for C9 on the concrete trace `opsEx` at type 0 (inserted). -/
theorem hasStorage_witness :
    runOps (World.new CompN) opsEx = some wRun ∧
    (wRun.hasStorage 0 = true ↔ ∃ op ∈ opsEx, opInserts 0 op) :=
  ⟨rfl, hasStorage_iff_ever_inserted opsEx wRun 0 rfl⟩

/-- Witness for C10: type 7 has no storage in `wEx`. -/
theorem view_panics_witness :
    mapGet wEx.storages 7 = none ∧
    (wEx.view 7 = .error "Storage not initialized" ∧
    wEx.view_mut 7 = .error "Storage not initialized (mut version)" ∧
    wEx.storage 7 = .absent ∧ wEx.storage_mut 7 = .absent) :=
  ⟨rfl, view_panics_on_absent wEx 7 rfl⟩
